import Mathlib

/-!
Verification development for the Localship streaming patch parser core
(`src/services/llmService.ts`, `src/services/runOrchestrator.ts`).

Text is modelled as `List Char` (`Str`).  Every definition is a shallow
embedding of the corresponding TypeScript function: pure functions become
Lean functions, regular-expression scans become explicit fueled scanners
with the same match semantics, and JS `-1` index sentinels become
`Option Nat`.
-/

namespace Localship

/-- Text, modelled as a list of characters. -/
abbrev Str := List Char

/-- JS whitespace class (`\s`, `String.prototype.trim`), restricted to the
ASCII white space characters that can occur in the parsed streams. -/
def isWsChar (c : Char) : Bool :=
  c = ' ' || c = '\t' || c = '\n' || c = '\r' || c = '\x0b' || c = '\x0c'

/-- `String.prototype.trim`. -/
def trimStr (s : Str) : Str :=
  ((s.dropWhile isWsChar).reverse.dropWhile isWsChar).reverse

/-- ASCII lower-casing, for the `/i` regex flag (all tags are ASCII). -/
def lowerStr (s : Str) : Str := s.map Char.toLower

/-- `text.split("\n")` (never returns an empty list). -/
def splitLines : Str → List Str
  | [] => [[]]
  | c :: rest =>
    match splitLines rest with
    | [] => [[]]
    | l :: ls => if c = '\n' then [] :: l :: ls else (c :: l) :: ls

/-- `"\n"`-joining, inverse of `splitLines`. -/
def joinLines (ls : List Str) : Str := List.intercalate ['\n'] ls

/-- First index at which `needle` occurs in `s` (JS `indexOf`), starting
the returned count at `i`. -/
def findIdxAux (needle : Str) : Str → Nat → Option Nat
  | s, i =>
    if needle.isPrefixOf s then some i
    else
      match s with
      | [] => none
      | _ :: t => findIdxAux needle t (i + 1)

/-- JS `source.indexOf(needle)` as `Option Nat`. -/
def findIdx (needle s : Str) : Option Nat := findIdxAux needle s 0

/-- Case-insensitive `indexOf` (regex `/i` flag; positions agree with the
original string because lower-casing is character-wise). -/
def findIdxCI (needle s : Str) : Option Nat := findIdx (lowerStr needle) (lowerStr s)

/-- Case-insensitive `startsWith`. -/
def startsCI (needle s : Str) : Bool := (lowerStr needle).isPrefixOf (lowerStr s)

/-- Non-overlapping occurrence count, fueled (`countOccurrences` in
`applyPatches`; each found occurrence consumes at least one character,
so `src.length` fuel is always enough). -/
def countOccurAux : Nat → Str → Str → Nat
  | 0, _, _ => 0
  | fuel + 1, src, needle =>
    match findIdx needle src with
    | none => 0
    | some i => 1 + countOccurAux fuel (src.drop (i + needle.length)) needle

/-- `countOccurrences(src, needle)` from `applyPatches`. -/
def countOccur (src needle : Str) : Nat :=
  if needle.isEmpty then 0 else countOccurAux src.length src needle

/-- `stripTrailingComment` from `locateAnchor`: the regex
`/\s*\/\/.*$/` removal followed by `.trim()` equals trimming the part of
the line before its first `//`. -/
def stripTrailingComment (t : Str) : Str :=
  match findIdx ['/', '/'] t with
  | none => trimStr t
  | some i => trimStr (t.take i)

/-- Result of `locateAnchor`: JS start `-1` is `none`. -/
structure AnchorHit where
  start : Option Nat
  matched : Str
  count : Nat
  deriving DecidableEq, Repr

/-- Matching line windows of `findLines` inside `sourceLines` where each
line is compared through the normalizer `f`; yields the window start line
index and the matched span reconstructed from the source lines
(tiers 2 and 3 of `locateAnchor`). -/
def windowHits (f : Str → Str) (sourceLines findLines : List Str) : List (Nat × Str) :=
  if sourceLines.length < findLines.length then []
  else
    (List.range (sourceLines.length - findLines.length + 1)).filterMap fun i =>
      let window := (sourceLines.drop i).take findLines.length
      if (window.zip findLines).all (fun p => f p.1 = f p.2) then
        some (i, joinLines window)
      else none

/-- Character index of the start of line `i`
(`sourceLines.slice(0, i).join("\n").length + (i > 0 ? 1 : 0)`). -/
def lineStartIdx (sourceLines : List Str) (i : Nat) : Nat :=
  (joinLines (sourceLines.take i)).length + (if 0 < i then 1 else 0)

/-- The non-empty (after trim) lines of the `find` snippet
(`find.split("\n").filter(l => l.trim().length > 0)`). -/
def findLinesOf (find : Str) : List Str :=
  (splitLines find).filter fun l => !(trimStr l).isEmpty

/-- Tiers 2 and 3 of `locateAnchor`: the trimmed line-window match, and —
only when it has zero hits — the comment-insensitive line-window match.
More than one hit at either tier is reported as ambiguity. -/
def locateTier23 (sourceLines findLines : List Str) : AnchorHit :=
  match windowHits trimStr sourceLines findLines with
  | [h] => { start := some (lineStartIdx sourceLines h.1), matched := h.2, count := 1 }
  | [] =>
    match windowHits stripTrailingComment sourceLines findLines with
    | [h] => { start := some (lineStartIdx sourceLines h.1), matched := h.2, count := 1 }
    | [] => { start := none, matched := [], count := 0 }
    | l => { start := none, matched := [], count := l.length }
  | l => { start := none, matched := [], count := l.length }

/-- `locateAnchor(source, find)` from `applyPatches`
(`src/services/llmService.ts` lines 674-736): tier 1 exact substring
(taken only on a unique hit), then the line-window tiers. -/
def locateAnchor (source find : Str) : AnchorHit :=
  if countOccur source find = 1 then
    { start := findIdx find source, matched := find, count := 1 }
  else if (findLinesOf find).isEmpty then { start := none, matched := [], count := 0 }
  else locateTier23 (splitLines source) (findLinesOf find)

/-- `normalizeText`: `text.replace(/\r\n/g, '\n').replace(/\r/g, '\n')`
(the left-to-right pairing of the global regex makes the two passes equal
to this single scan). -/
def normalizeText : Str → Str
  | [] => []
  | '\r' :: '\n' :: rest => '\n' :: normalizeText rest
  | '\r' :: rest => '\n' :: normalizeText rest
  | c :: rest => c :: normalizeText rest

/-- Leading code-fence strip from `applyPatches`:
`.replace(/^```[a-z]*\n/i, '')`. -/
def stripLeadFence (s : Str) : Str :=
  match s with
  | '`' :: '`' :: '`' :: rest =>
    let label := rest.takeWhile Char.isAlpha
    match rest.drop label.length with
    | '\n' :: tail => tail
    | _ => s
  | _ => s

/-- Trailing code-fence strip from `applyPatches`: `.replace(/```$/i, '')`. -/
def stripTrailFence (s : Str) : Str :=
  if ['`', '`', '`'].isSuffixOf s then s.take (s.length - 3) else s

/-- The patch-body normalization in `applyPatches`:
`normalizeText(patchBody).trim().replace(/^```[a-z]*\n/i, '').replace(/```$/i, '').trim()`. -/
def prepBody (patchBody : Str) : Str :=
  trimStr (stripTrailFence (stripLeadFence (trimStr (normalizeText patchBody))))

/-- Operation vocabulary of the patch protocol. -/
inductive OpType where
  | replace
  | insert_before
  | insert_after
  | delete
  | create
  deriving DecidableEq, Repr

/-- Tag name of an operation type, as it appears in the stream. -/
def opTypeName : OpType → Str
  | .replace => "replace".toList
  | .insert_before => "insert_before".toList
  | .insert_after => "insert_after".toList
  | .delete => "delete".toList
  | .create => "create".toList

/-- A parsed patch operation; `w` models the TS field named `with`
(a Lean keyword). -/
structure PatchOp where
  type : OpType
  find : Str
  w : Str
  deriving DecidableEq, Repr

/-- First `<tag>…</tag>` capture inside `s`, case-insensitive and lazy
(the `/<find>([\s\S]*?)<\/find>/i.exec` pattern; a leftmost match exists
iff some opening tag is followed by a closing tag, and then it pairs the
first opening tag with the first closing tag after it). -/
def extractFirstTag (tag : Str) (s : Str) : Option Str :=
  match findIdxCI ('<' :: tag ++ ['>']) s with
  | none => none
  | some i =>
    let after := s.drop (i + tag.length + 2)
    match findIdxCI (['<', '/'] ++ tag ++ ['>']) after with
    | none => none
    | some j => some (after.take j)

/-- The typed operations an inner wrapper body yields (the `type`
dispatch inside the `wrapperRegex` loop of `applyPatches`). -/
def mkOps (t : OpType) (inner : Str) : List PatchOp :=
  let findText := normalizeText ((extractFirstTag "find".toList inner).getD [])
  let withText := normalizeText ((extractFirstTag "with".toList inner).getD [])
  match t with
  | .create => if (trimStr withText).isEmpty then [] else [⟨.create, [], withText⟩]
  | .delete => if (trimStr findText).isEmpty then [] else [⟨.delete, findText, []⟩]
  | _ =>
    if (trimStr findText).isEmpty || (trimStr withText).isEmpty then []
    else [⟨t, findText, withText⟩]

/-- Does `s` start with the opening tag `<name>` of some operation type?
(The five tag literals are pairwise prefix-free, so at most one matches.) -/
def tryOpenTag (s : Str) : Option OpType :=
  [OpType.replace, .insert_before, .insert_after, .delete, .create].find? fun t =>
    startsCI ('<' :: opTypeName t ++ ['>']) s

/-- Scanner for the global lazy wrapper regex
`/<(replace|insert_before|insert_after|delete|create)>([\s\S]*?)<\/\1>/gi`:
at each position an opening tag with a later matching closing tag yields a
match up to the first such closing tag; an unclosed opening tag makes the
engine advance one character. -/
def parseOpsAux : Nat → Str → List PatchOp
  | 0, _ => []
  | fuel + 1, s =>
    match s with
    | [] => []
    | _ :: rest =>
      match tryOpenTag s with
      | some t =>
        let after := s.drop ((opTypeName t).length + 2)
        let closeLit := ['<', '/'] ++ opTypeName t ++ ['>']
        match findIdxCI closeLit after with
        | some j => mkOps t (after.take j) ++ parseOpsAux fuel (after.drop (j + closeLit.length))
        | none => parseOpsAux fuel rest
      | none => parseOpsAux fuel rest

/-- All wrapper-style operations of a normalized patch body. -/
def parseWrapperOps (body : Str) : List PatchOp := parseOpsAux body.length body

/-- Case-insensitive `indexOf` from an offset, as an absolute index. -/
def findIdxFromCI (needle s : Str) (start : Nat) : Option Nat :=
  (findIdxCI needle (s.drop start)).map (· + start)

/-- Continuation of the sibling regex
`/<find>([\s\S]*?)<\/find>\s*<with>([\s\S]*?)<\/with>/gi` after an
opening `<find>`: the lazy first capture extends to successive `</find>`
occurrences until whitespace plus `<with>…</with>` completes the match.
Returns the two raw captures and how many characters of the text after
`<find>` the match consumed. -/
def trySiblingFrom : Nat → Str → Nat → Option (Str × Str × Nat)
  | 0, _, _ => none
  | fuel + 1, afterFind, pos =>
    match findIdxFromCI "</find>".toList afterFind pos with
    | none => none
    | some k =>
      let tailA := afterFind.drop (k + 7)
      let wsLen := (tailA.takeWhile isWsChar).length
      let tailB := tailA.drop wsLen
      if startsCI "<with>".toList tailB then
        let tailC := tailB.drop 6
        match findIdxCI "</with>".toList tailC with
        | some m => some (afterFind.take k, tailC.take m, k + 7 + wsLen + 6 + m + 7)
        | none => trySiblingFrom fuel afterFind (k + 1)
      else trySiblingFrom fuel afterFind (k + 1)

/-- Global scan for sibling `<find>…</find>\s*<with>…</with>` matches,
recording each match's start index (used by the inline-rescue extractor to
skip matches inside `<replace>` wrappers). -/
def siblingScanAux : Nat → Nat → Str → List (Nat × Str × Str)
  | 0, _, _ => []
  | fuel + 1, pos, s =>
    match s with
    | [] => []
    | _ :: rest =>
      if startsCI "<find>".toList s then
        let afterFind := s.drop 6
        match trySiblingFrom (afterFind.length + 1) afterFind 0 with
        | some (f, w, consumed) =>
          (pos, f, w) :: siblingScanAux fuel (pos + 6 + consumed) (s.drop (6 + consumed))
        | none => siblingScanAux fuel (pos + 1) rest
      else siblingScanAux fuel (pos + 1) rest

/-- Sibling-format fallback of `applyPatches` (used only when the wrapper
scan produced no operations): each match becomes a `replace`. -/
def parseSiblingOps (body : Str) : List PatchOp :=
  (siblingScanAux body.length 0 body).filterMap fun m =>
    let f := normalizeText m.2.1
    let w := normalizeText m.2.2
    if (trimStr f).isEmpty || (trimStr w).isEmpty then none
    else some ⟨.replace, f, w⟩

/-- De-duplication key `${op.type}\n${op.find}\n---\n${op.with}`. -/
def opKey (op : PatchOp) : Str :=
  opTypeName op.type ++ '\n' :: op.find ++ "\n---\n".toList ++ op.w

/-- De-duplication by key, keeping first occurrences in order. -/
def dedupAux : List Str → List PatchOp → List PatchOp
  | _, [] => []
  | seen, op :: rest =>
    if seen.any (fun k => k = opKey op) then dedupAux seen rest
    else op :: dedupAux (opKey op :: seen) rest

/-- `dedupedOps` stage of `applyPatches` (and `dedupeInlineOps`, which
uses the same key with the constant type `replace`). -/
def dedupOps (ops : List PatchOp) : List PatchOp := dedupAux [] ops

/-- Decimal digits of a natural number (for the interpolated ambiguity
reason string). -/
def natToStrAux : Nat → Nat → Str → Str
  | 0, _, acc => acc
  | fuel + 1, n, acc =>
    let acc := Char.ofNat (48 + n % 10) :: acc
    if n / 10 = 0 then acc else natToStrAux fuel (n / 10) acc

/-- Decimal rendering of a natural number. -/
def natToStr (n : Nat) : Str := natToStrAux (n + 1) n []

/-- Failure reason `"Anchor not found (check whitespace/indentation)."`. -/
def reasonNotFound : Str := "Anchor not found (check whitespace/indentation).".toList

/-- Failure reason `"Anchor found ${count}x (ambiguous)."`. -/
def reasonAmbiguous (n : Nat) : Str :=
  "Anchor found ".toList ++ natToStr n ++ "x (ambiguous).".toList

/-- Failure reason `"Create op produced no file diff."`. -/
def reasonCreateNoDiff : Str := "Create op produced no file diff.".toList

/-- Failure reason `"No valid operation segments found."`. -/
def reasonNoValidOps : Str := "No valid operation segments found.".toList

/-- Failure reason `"No anchors matched."`. -/
def reasonNoAnchors : Str := "No anchors matched.".toList

/-- One operation applied at a located anchor (the slice arithmetic of the
`applyPatches` execution loop). -/
def applyOp (op : PatchOp) (st : Nat) (matched content : Str) : Str :=
  let len := matched.length
  match op.type with
  | .replace => content.take st ++ op.w ++ content.drop (st + len)
  | .insert_before => content.take st ++ op.w ++ matched ++ content.drop (st + len)
  | .insert_after => content.take st ++ matched ++ op.w ++ content.drop (st + len)
  | .delete => content.take st ++ content.drop (st + len)
  | .create => content

/-- State of the `applyPatches` execution loop: the running content
buffer, whether the loop is still successful (strict mode breaks on the
first failure), the last failure reason, and the applied-operation
count. -/
structure ExecState where
  content : Str
  ok : Bool
  reason : Str
  applied : Nat
  deriving DecidableEq, Repr

/-- The `applyPatches` execution loop over the de-duplicated operations:
an ambiguous or missing anchor aborts in strict mode (returning with
`ok = false`) and is skipped in best-effort mode; an applied operation
counts only if it changed the running content. -/
def execOps (bestEffort : Bool) : List PatchOp → Str → Str → Nat → ExecState
  | [], content, reason, applied => ⟨content, true, reason, applied⟩
  | op :: rest, content, reason, applied =>
    let hit := locateAnchor content op.find
    if 1 < hit.count then
      if bestEffort then execOps bestEffort rest content (reasonAmbiguous hit.count) applied
      else ⟨content, false, reasonAmbiguous hit.count, applied⟩
    else
      match hit.start with
      | none =>
        if bestEffort then execOps bestEffort rest content reasonNotFound applied
        else ⟨content, false, reasonNotFound, applied⟩
      | some st =>
        let newC := applyOp op st hit.matched content
        execOps bestEffort rest newC reason (applied + if newC = content then 0 else 1)

/-- Result record of `applyPatches`
(`{ content, success, reason?, opsCount, appliedOps }`; a missing reason
is the empty string). -/
structure PatchResult where
  content : Str
  success : Bool
  reason : Str
  opsCount : Nat
  appliedOps : Nat
  deriving DecidableEq, Repr

/-- Operation extraction stage of `applyPatches`: wrapper-tag parse with
sibling-format fallback, over the fence-stripped body. -/
def bodyOps (patchBody : Str) : List PatchOp :=
  let b := prepBody patchBody
  let ops := parseWrapperOps b
  if ops.isEmpty then parseSiblingOps b else ops

/-- The de-duplicated operations of a patch body. -/
def dedupedOf (patchBody : Str) : List PatchOp := dedupOps (bodyOps patchBody)

/-- The create operations among the de-duplicated operations
(`dedupedOps.filter(o => o.type === 'create')`). -/
def createsOf (patchBody : Str) : List PatchOp :=
  (dedupedOf patchBody).filter fun o => o.type == OpType.create

/-- `applyPatches` after parsing: create precedence, the empty-batch
no-op report, the strict/best-effort execution loop, and the final
result assembly (`src/services/llmService.ts` lines 792-843). -/
def applyPatchesOps (originalContent : Str) (dedupedOps : List PatchOp)
    (isFinal bestEffort : Bool) : PatchResult :=
  match (dedupedOps.filter fun o => o.type == OpType.create).getLast? with
  | some lastCreate =>
    if originalContent = lastCreate.w then
      if isFinal then ⟨originalContent, false, reasonCreateNoDiff, 1, 0⟩
      else ⟨originalContent, true, [], 1, 0⟩
    else ⟨lastCreate.w, true, [], 1, 1⟩
  | none =>
    if dedupedOps.isEmpty then
      if isFinal then ⟨originalContent, false, reasonNoValidOps, 0, 0⟩
      else ⟨originalContent, true, [], 0, 0⟩
    else
      let e := execOps bestEffort dedupedOps originalContent [] 0
      if e.ok = false then ⟨originalContent, false, e.reason, dedupedOps.length, e.applied⟩
      else if bestEffort && e.applied == 0 then
        ⟨originalContent, false, if e.reason.isEmpty then reasonNoAnchors else e.reason,
          dedupedOps.length, e.applied⟩
      else ⟨e.content, true, [], dedupedOps.length, e.applied⟩

/-- `applyPatches(content, patchBody, isFinal, options)` from
`src/services/llmService.ts` lines 646-843; `bestEffort` models
`options?.bestEffort`. -/
def applyPatches (content patchBody : Str) (isFinal bestEffort : Bool) : PatchResult :=
  applyPatchesOps (normalizeText content) (dedupedOf patchBody) isFinal bestEffort

/-- Scanner positions for the global lazy `/<replace>([\s\S]*?)<\/replace>/gi`
wrapper regex of `extractInlineReplaceOps`: match start, match end and the
inner capture. -/
def replaceScanAux : Nat → Nat → Str → List (Nat × Nat × Str)
  | 0, _, _ => []
  | fuel + 1, pos, s =>
    match s with
    | [] => []
    | _ :: rest =>
      if startsCI "<replace>".toList s then
        let after := s.drop 9
        match findIdxCI "</replace>".toList after with
        | some j =>
          (pos, pos + 9 + j + 10, after.take j) ::
            replaceScanAux fuel (pos + 9 + j + 10) (after.drop (j + 10))
        | none => replaceScanAux fuel (pos + 1) rest
      else replaceScanAux fuel (pos + 1) rest

/-- `extractInlineReplaceOps(text)` (`src/services/llmService.ts` lines
600-628): wrapper-form `<replace>` operations first, then sibling-form
matches that do not start inside a wrapper match; captures are trimmed
here (unlike in `applyPatches`). -/
def extractInlineReplaceOps (text : Str) : List PatchOp :=
  let bodyNorm := prepBody text
  let wrappers := replaceScanAux bodyNorm.length 0 bodyNorm
  let wrapperOps : List PatchOp := wrappers.filterMap fun wr =>
    let inner := wr.2.2
    let f := trimStr (normalizeText ((extractFirstTag "find".toList inner).getD []))
    let w := trimStr (normalizeText ((extractFirstTag "with".toList inner).getD []))
    if f.isEmpty || w.isEmpty then none else some ⟨.replace, f, w⟩
  let siblingOps : List PatchOp := (siblingScanAux bodyNorm.length 0 bodyNorm).filterMap fun m =>
    if wrappers.any (fun wr => decide (wr.1 ≤ m.1 ∧ m.1 < wr.2.1)) then none
    else
      let f := trimStr (normalizeText m.2.1)
      let w := trimStr (normalizeText m.2.2)
      if f.isEmpty || w.isEmpty then none else some ⟨.replace, f, w⟩
  wrapperOps ++ siblingOps

/-- One canonical wrapper block emitted by `buildPatchBodyFromInlineOps`. -/
def buildInlineOp (op : PatchOp) : Str :=
  "<replace>\n<find>\n".toList ++ op.find ++ "\n</find>\n<with>\n".toList ++ op.w
    ++ "\n</with>\n</replace>".toList

/-- `buildPatchBodyFromInlineOps(ops)`. -/
def buildPatchBodyFromInlineOps (ops : List PatchOp) : Str :=
  List.intercalate "\n\n".toList (ops.map buildInlineOp)

/-- The patch body the inline rescue feeds to the Patch Engine
(`normalizedInlinePatch` in `parseResponse`): the rebuilt canonical body
when de-duplicated inline operations exist, otherwise the cleaned text
itself. -/
def rescueBody (text : Str) : Str :=
  let ops := dedupOps (extractInlineReplaceOps text)
  if ops.isEmpty then text else buildPatchBodyFromInlineOps ops

/-- One candidate target file of the inline cross-file rescue. -/
structure RescueCand where
  file : Str
  result : PatchResult
  score : Nat
  deriving DecidableEq, Repr

/-- Candidate collection of the inline rescue (`parseResponse` lines
1016-1027): every project file is tried in best-effort mode and kept when
the run succeeded, applied at least one operation and changed the
content; the score is `appliedOps * 100 + (opsCount === appliedOps ? 1 : 0)`. -/
def rescueCandidates (text : Str) (files : List (Str × Str)) (isFinal : Bool) :
    List RescueCand :=
  files.filterMap fun fc =>
    let r := applyPatches fc.2 (rescueBody text) isFinal true
    if r.success && decide (0 < r.appliedOps) && decide (r.content ≠ fc.2) then
      some ⟨fc.1, r, r.appliedOps * 100 + (if r.opsCount = r.appliedOps then 1 else 0)⟩
    else none

/-- The top score among candidates (the head of the descending sort in
`parseResponse`; only the set of top-scoring candidates matters, so the
sort is modelled by taking the maximum). -/
def topScoreOf (cands : List RescueCand) : Nat := cands.foldl (fun m c => max m c.score) 0

/-- The candidates tied at the top score (`top` in `parseResponse`). -/
def rescueTop (cands : List RescueCand) : List RescueCand :=
  cands.filter fun c => c.score == topScoreOf cands

/-- JS object-key update `files[k] = v` on an insertion-ordered map. -/
def setFile : List (Str × Str) → Str → Str → List (Str × Str)
  | [], k, v => [(k, v)]
  | (k0, v0) :: t, k, v => if k0 = k then (k, v) :: t else (k0, v0) :: setFile t k v

/-- Decision slice of the inline cross-file rescue (`parseResponse` lines
1029-1049): returns the resulting file set, the ambiguity flag
(`inlinePatchAmbiguous`, reported as a hard `PROTOCOL_VIOLATION` failure)
and the applied flag (`inlinePatchApplied`).  With no candidates the step
leaves the files alone (the later fallbacks are out of this slice); with a
unique top-scoring candidate it applies that candidate's content; with a
tie it mutates nothing. -/
def inlineRescueStep (text : Str) (files : List (Str × Str)) (isFinal : Bool) :
    List (Str × Str) × Bool × Bool :=
  let cands := rescueCandidates text files isFinal
  if cands.isEmpty then (files, false, false)
  else
    match rescueTop cands with
    | [c] => (setFile files c.file c.result.content, false, true)
    | _ => (files, true, false)

/-- Generic left-to-right regex-replace scanner: `step` tries to match a
rule at the current position, yielding the replacement text and the
residue after the match (every rule consumes at least one character, so
`s.length` fuel suffices); on no match the scanner keeps one character
and advances. -/
def scanRw (step : Str → Option (Str × Str)) : Nat → Str → Str
  | 0, s => s
  | _ + 1, [] => []
  | fuel + 1, c :: rest =>
    match step (c :: rest) with
    | some (out, residue) => out ++ scanRw step fuel residue
    | none => c :: scanRw step fuel rest

/-- Run a replace rule over a whole text. -/
def runRw (step : Str → Option (Str × Str)) (s : Str) : Str := scanRw step s.length s

/-- `String(fileRaw).trim().replace(/["']/g, '')`. -/
def removeQuotes (s : Str) : Str := s.filter fun c => c ≠ '"' && c ≠ '\''

/-- The canonical marker `<!-- ${kind}: ${file} -->` emitted by
`normalizeToolMarkers`. -/
def canonicalMarker (kindName file : Str) : Str :=
  "<!-- ".toList ++ kindName ++ ": ".toList ++ removeQuotes (trimStr file) ++ " -->".toList

/-- Rule `/<function\s*=\s*(patch|filename):\s*([^>\s]+)\s*>/gi` of
`normalizeToolMarkers` (greedy capture of non-space, non-`>` characters). -/
def stepFunctionWrapper (kindName : Str) (s : Str) : Option (Str × Str) :=
  if startsCI "<function".toList s then
    let r1 := s.drop 9
    let r2 := r1.drop (r1.takeWhile isWsChar).length
    match r2 with
    | '=' :: r3 =>
      let r4 := r3.drop (r3.takeWhile isWsChar).length
      if startsCI (kindName ++ [':']) r4 then
        let r5 := r4.drop (kindName.length + 1)
        let r6 := r5.drop (r5.takeWhile isWsChar).length
        let cap := r6.takeWhile fun c => !isWsChar c && c ≠ '>'
        if cap.isEmpty then none
        else
          let r7 := r6.drop cap.length
          match r7.drop (r7.takeWhile isWsChar).length with
          | '>' :: r8 => some (canonicalMarker kindName cap, r8)
          | _ => none
      else none
    | _ => none
  else none

/-- Rule `/<(patch|filename):\s*([^>\n]+?)\s*>/gi` of
`normalizeToolMarkers`.  Only the first `>` after the opening can close
the match (the capture class excludes `>`).  The middle splits as
`\s* capture \s*` with a non-empty capture free of `>` and `\n`: when the
trimmed middle is non-empty the split exists iff that core is
single-line; when the middle is whitespace-only the greedy `\s*`
backtracks and any non-newline whitespace character serves as the
capture (so `"<patch: >"` is rewritten, with an empty trimmed file
name), and only a middle that is empty or all newlines fails. -/
def stepMarkerWrapper (kindName : Str) (s : Str) : Option (Str × Str) :=
  let lit := '<' :: kindName ++ [':']
  if startsCI lit s then
    let rest := s.drop lit.length
    match findIdx ['>'] rest with
    | none => none
    | some e =>
      let mid := rest.take e
      let fileRaw := trimStr mid
      if (if fileRaw.isEmpty then mid.any fun c => c ≠ '\n'
          else !fileRaw.contains '\n') then
        some (canonicalMarker kindName fileRaw, rest.drop (e + 1))
      else none
  else none

/-- JS word character for `\b`. -/
def isWordChar (c : Char) : Bool := c.isAlphanum || c = '_'

/-- Rule `/<\/?\s*(tool_call|toolcall|tool|function_call)\b[^>]*>/gi`
of `normalizeToolMarkers`, replaced by nothing. -/
def stepToolWrapper (s : Str) : Option (Str × Str) :=
  match s with
  | '<' :: r1 =>
    let r2 := match r1 with | '/' :: t => t | _ => r1
    let r3 := r2.drop (r2.takeWhile isWsChar).length
    let kw? := ["tool_call".toList, "toolcall".toList, "tool".toList,
      "function_call".toList].find? fun k =>
        startsCI k r3 &&
          (match r3.drop k.length with
           | [] => true
           | c :: _ => !isWordChar c)
    match kw? with
    | none => none
    | some k =>
      let r4 := r3.drop k.length
      let body := r4.takeWhile fun c => c ≠ '>'
      match r4.drop body.length with
      | '>' :: r5 => some ([], r5)
      | _ => none
  | _ => none

/-- Case-insensitive removal of a literal (`.replace(/<\/patch>/gi, '')`
and `.replace(/<\/function>/gi, '')`). -/
def stepRemoveLit (lit : Str) (s : Str) : Option (Str × Str) :=
  if startsCI lit s then some ([], s.drop lit.length) else none

/-- `normalizeToolMarkers` (`src/services/llmService.ts` lines 380-410),
text component only: the warning pushes do not affect the returned text,
and the conditional `</patch>`/`</function>` removals are text-equivalent
to unconditional ones. -/
def normalizeToolMarkers (s : Str) : Str :=
  let o1 := runRw (stepFunctionWrapper "patch".toList) s
  let o2 := runRw (stepFunctionWrapper "filename".toList) o1
  let o3 := runRw (stepMarkerWrapper "patch".toList) o2
  let o4 := runRw (stepMarkerWrapper "filename".toList) o3
  let o5 := runRw stepToolWrapper o4
  let o6 := runRw (stepRemoveLit "</patch>".toList) o5
  runRw (stepRemoveLit "</function>".toList) o6

/-- Rule `new RegExp("</" + tag + "(?=\\s|$|<)", "gi")` of
`normalizeBrokenXmlClosings`: a truncated closing tag followed by
whitespace, `<` or end of input is replaced by the well-formed lowercase
closing tag; the lookahead is not consumed. -/
def stepBrokenClosing (tag : Str) (s : Str) : Option (Str × Str) :=
  let lit := ['<', '/'] ++ tag
  if startsCI lit s then
    let after := s.drop lit.length
    match after with
    | [] => some (lit ++ ['>'], [])
    | c :: _ => if isWsChar c || c = '<' then some (lit ++ ['>'], after) else none
  else none

/-- First position of a dangling `</` followed only by whitespace to the
end of the buffer (the `/<\/\s*$/g` removal). -/
def danglingIdxAux : Nat → Nat → Str → Option Nat
  | 0, _, _ => none
  | fuel + 1, pos, s =>
    match s with
    | [] => none
    | _ :: rest =>
      if ['<', '/'].isPrefixOf s && (s.drop 2).all isWsChar then some pos
      else danglingIdxAux fuel (pos + 1) rest

/-- `normalizeBrokenXmlClosings` (`src/services/llmService.ts` lines
412-424), text component only. -/
def normalizeBrokenXmlClosings (s : Str) : Str :=
  let tags := ["replace", "insert_before", "insert_after", "delete", "create", "find", "with"]
  let out := tags.foldl (fun acc tag => runRw (stepBrokenClosing tag.toList) acc) s
  match danglingIdxAux out.length 0 out with
  | some i => out.take i
  | none => out

/-- The Text Normalizer as `parseResponse` runs it (lines 910-912):
tool-marker normalization followed by broken-closing repair. -/
def textNormalize (s : Str) : Str := normalizeBrokenXmlClosings (normalizeToolMarkers s)

/-- Association-list lookup on an insertion-ordered file map
(`files[key]`, `undefined` is `none`). -/
def lookupF : List (Str × Str) → Str → Option Str
  | [], _ => none
  | (k0, v0) :: t, k => if k0 = k then some v0 else lookupF t k

/-- The core scaffold paths of the final-pass guard. -/
def coreScaffold : List Str := ["index.html".toList, "index.tsx".toList, "App.tsx".toList]

/-- The core-scaffold restore loop of `parseResponse` (lines 1252-1266),
run on the final applying pass: a scaffold path present in the baseline
but absent from the produced set is copied back; the restored paths are
collected in iteration order. -/
def scaffoldRestore : List Str → List (Str × Str) → List (Str × Str) →
    List (Str × Str) × List Str
  | [], _, newFiles => (newFiles, [])
  | k :: ks, baseFiles, newFiles =>
    match lookupF baseFiles k, lookupF newFiles k with
    | some v, none =>
      let r := scaffoldRestore ks baseFiles (setFile newFiles k v)
      (r.1, k :: r.2)
    | _, _ => scaffoldRestore ks baseFiles newFiles

/-- The scaffold guard over the fixed `coreScaffold` list. -/
def scaffoldGuard (baseFiles newFiles : List (Str × Str)) :
    List (Str × Str) × List Str :=
  scaffoldRestore coreScaffold baseFiles newFiles

/-- The `AUTO_GUARD` warning is pushed exactly when some path was
restored. -/
def scaffoldWarnings (restored : List Str) : List Str :=
  if restored.isEmpty then [] else ["AUTO_GUARD: Restored core scaffold file(s).".toList]

/-- `QualityMode` (`'single-pass' | 'adaptive-best-of-2' | 'always-best-of-2'`). -/
inductive QualityMode where
  | singlePass
  | adaptiveBestOf2
  | alwaysBestOf2
  deriving DecidableEq, Repr

/-- Input record of `shouldTriggerSecondAttempt`
(`src/services/runOrchestrator.ts`).  `attemptIndex` is 1-based. -/
structure RetryDecisionInput where
  qualityMode : QualityMode
  isRepairCall : Bool
  attemptIndex : Nat
  hasHardIssues : Bool
  hasRuntimeIssues : Bool
  noEffectiveChanges : Bool
  inlineNoOp : Bool
  deriving DecidableEq, Repr

/-- Result record of `shouldTriggerSecondAttempt`. -/
structure RetryDecision where
  shouldRetry : Bool
  reason : String
  deriving DecidableEq, Repr

/-- `shouldTriggerSecondAttempt` (`src/services/runOrchestrator.ts`
lines 34-60). -/
def shouldTriggerSecondAttempt (input : RetryDecisionInput) : RetryDecision :=
  if input.isRepairCall then ⟨false, "retry_disabled_for_repair_calls"⟩
  else if 2 ≤ input.attemptIndex then ⟨false, "retry_already_performed"⟩
  else
    match input.qualityMode with
    | .singlePass => ⟨false, "quality_mode_single_pass"⟩
    | .alwaysBestOf2 => ⟨true, "quality_mode_always_best_of_2"⟩
    | .adaptiveBestOf2 =>
      if input.hasHardIssues || input.hasRuntimeIssues || input.noEffectiveChanges
          || input.inlineNoOp then
        ⟨true, "adaptive_retry_on_failure_signals"⟩
      else ⟨false, "primary_attempt_healthy"⟩

/-- `RunCandidateScore` record. -/
structure RunCandidateScore where
  validationDelta : Int
  runtimeOk : Bool
  changedFiles : Nat
  appliedOps : Nat
  hardFailures : Nat
  score : Int
  deriving DecidableEq, Repr

/-- `scoreRunCandidate` (`src/services/runOrchestrator.ts` lines 99-120). -/
def scoreRunCandidate (validationDelta : Int) (runtimeOk : Bool)
    (changedFiles appliedOps hardFailures : Nat) : RunCandidateScore :=
  let score : Int :=
    (if 0 < changedFiles then (240 : Int) else -120)
      + ((min appliedOps 6 : Nat) : Int) * 16
      - max 0 validationDelta * 140
      + (if runtimeOk then (60 : Int) else -80)
      - (hardFailures : Int) * 110
  ⟨validationDelta, runtimeOk, changedFiles, appliedOps, hardFailures, score⟩

/-! ## Claim C1 — Anchor Locator ambiguity handling -/

/-- C1 counterexample: the claim states that an ambiguous exact-substring
match at tier 1 stops locating with `occurrenceCount > 1` and no usable
position.  On `source = "xaby\nab"`, `find = "ab"` the exact tier counts
two occurrences, yet `locateAnchor` falls through to the line-normalized
tier and returns a usable unique position. -/
theorem locateAnchor_tier1_ambiguity_fallthrough_cex :
    countOccur "xaby\nab".toList "ab".toList = 2 ∧
    locateAnchor "xaby\nab".toList "ab".toList =
      { start := some 5, matched := "ab".toList, count := 1 } := by
  decide

/-- C1 (amended): ambiguity stops locating at tier 2 and tier 3 — when
the exact tier did not yield a unique hit and the trimmed line-window
tier has more than one hit, the locator reports that ambiguity without
falling through to the comment-insensitive tier; and when tier 2 has
zero hits and tier 3 has more than one hit, the ambiguity is reported
with no usable position.  (At tier 1, a non-unique exact count — zero
or more than one — falls through to tier 2.) -/
theorem locateAnchor_tier23_ambiguity_stops (source find : Str)
    (hex : countOccur source find ≠ 1)
    (hfl : (findLinesOf find).isEmpty = false) :
    (1 < (windowHits trimStr (splitLines source) (findLinesOf find)).length →
      locateAnchor source find =
        { start := none, matched := [],
          count := (windowHits trimStr (splitLines source) (findLinesOf find)).length }) ∧
    (windowHits trimStr (splitLines source) (findLinesOf find) = [] →
      1 < (windowHits stripTrailingComment (splitLines source) (findLinesOf find)).length →
      locateAnchor source find =
        { start := none, matched := [],
          count := (windowHits stripTrailingComment (splitLines source)
            (findLinesOf find)).length }) := by
  have hloc : locateAnchor source find = locateTier23 (splitLines source) (findLinesOf find) := by
    unfold locateAnchor
    rw [if_neg hex, if_neg (by simp [hfl])]
  constructor
  · intro h2
    rw [hloc]
    unfold locateTier23
    rcases hw : windowHits trimStr (splitLines source) (findLinesOf find) with _ | ⟨a, _ | ⟨b, t⟩⟩
    · rw [hw] at h2; simp at h2
    · rw [hw] at h2; simp at h2
    · simp [hw]
  · intro h0 h3
    rw [hloc]
    unfold locateTier23
    rw [h0]
    rcases hw : windowHits stripTrailingComment (splitLines source) (findLinesOf find) with
      _ | ⟨a, _ | ⟨b, t⟩⟩
    · rw [hw] at h3; simp at h3
    · rw [hw] at h3; simp at h3
    · simp [hw]

/-- Witness for C1: a tier-2 ambiguity (two trimmed-line matches of
`" a "` in `"a\na"`) and a tier-3 ambiguity (two comment-stripped
matches of `"x //3"` in `"x //1\nx //2"`), both reported with
`count = 2` and no position. -/
theorem locateAnchor_tier23_ambiguity_stops_witness :
    locateAnchor "a\na".toList " a ".toList = { start := none, matched := [], count := 2 } ∧
    locateAnchor "x //1\nx //2".toList "x //3".toList =
      { start := none, matched := [], count := 2 } := by
  constructor
  · have h := (locateAnchor_tier23_ambiguity_stops "a\na".toList " a ".toList
      (by decide) (by decide)).1 (by decide)
    rw [h]; decide
  · have h := (locateAnchor_tier23_ambiguity_stops "x //1\nx //2".toList "x //3".toList
      (by decide) (by decide)).2 (by decide) (by decide)
    rw [h]; decide

/-! ## Claim C2 — Patch Engine strict-mode atomicity -/

/-- The interpolated ambiguity reason is never the empty string. -/
theorem reasonAmbiguous_ne_nil (n : Nat) : reasonAmbiguous n ≠ [] := by
  intro h
  unfold reasonAmbiguous at h
  exact absurd (List.append_eq_nil.mp (List.append_eq_nil.mp h).1).1 (by decide)

/-- A strict-mode execution loop that ends unsuccessfully always carries
a non-empty failure reason. -/
theorem execOps_strict_fail_reason :
    ∀ (ops : List PatchOp) (content rs : Str) (a : Nat) (e : ExecState),
      execOps false ops content rs a = e → e.ok = false → e.reason ≠ [] := by
  intro ops
  induction ops with
  | nil =>
    intro content rs a e he hok
    rw [execOps] at he
    cases he
    simp at hok
  | cons op rest ih =>
    intro content rs a e he hok
    rw [execOps] at he
    split at he
    · simp only [Bool.false_eq_true, if_false] at he
      cases he
      exact reasonAmbiguous_ne_nil _
    · split at he
      · simp only [Bool.false_eq_true, if_false] at he
        cases he
        exact (by decide : reasonNotFound ≠ ([] : Str))
      · exact ih _ _ _ _ he hok

/-- Strict failure shape of the post-parse engine: an unsuccessful result
keeps the (normalized) original content and carries a non-empty reason. -/
theorem applyPatchesOps_strict_fail_shape (orig : Str) (ops : List PatchOp) (isFinal : Bool) :
    (applyPatchesOps orig ops isFinal false).success = false →
      (applyPatchesOps orig ops isFinal false).content = orig ∧
      (applyPatchesOps orig ops isFinal false).reason ≠ [] := by
  simp only [applyPatchesOps]
  split
  · split
    · split
      · intro _; exact ⟨rfl, (by decide : reasonCreateNoDiff ≠ ([] : Str))⟩
      · intro h; simp at h
    · intro h; simp at h
  · split
    · split
      · intro _; exact ⟨rfl, (by decide : reasonNoValidOps ≠ ([] : Str))⟩
      · intro h; simp at h
    · split
      · intro _
        refine ⟨rfl, ?_⟩
        exact execOps_strict_fail_reason ops orig [] 0 _ rfl (by assumption)
      · split
        · intro _
          rename_i hbe _
          simp at hbe
        · intro h; simp at h

/-- C2 (confirmed): strict-mode atomicity of `applyPatches`.  Whenever
the engine reports failure without the `bestEffort` option, the returned
content is the (newline-normalized) original content and the reason
string is non-empty; and whenever the execution loop over the
de-duplicated anchored operations fails on some operation (ambiguous or
missing anchor), the whole batch is reported unsuccessful. -/
theorem applyPatches_strict_atomicity (content patchBody : Str) (isFinal : Bool) :
    ((applyPatches content patchBody isFinal false).success = false →
      (applyPatches content patchBody isFinal false).content = normalizeText content ∧
      (applyPatches content patchBody isFinal false).reason ≠ []) ∧
    (createsOf patchBody = [] → dedupedOf patchBody ≠ [] →
      (execOps false (dedupedOf patchBody) (normalizeText content) [] 0).ok = false →
      (applyPatches content patchBody isFinal false).success = false) := by
  constructor
  · exact applyPatchesOps_strict_fail_shape (normalizeText content) (dedupedOf patchBody) isFinal
  · intro hc hne hok
    have hlast : ((dedupedOf patchBody).filter fun o => o.type == OpType.create).getLast? = none := by
      unfold createsOf at hc
      rw [hc]
      rfl
    have hemp : (dedupedOf patchBody).isEmpty = false := by
      cases h' : dedupedOf patchBody with
      | nil => exact absurd h' hne
      | cons a l => rfl
    simp only [applyPatches, applyPatchesOps, hlast, hemp, Bool.false_eq_true, if_false, hok,
      if_true]

/-- Witness for C2: a single `replace` whose anchor `"zz"` is absent from
the one-character file `"a"` aborts the batch, returning the original
content, `success = false` and a non-empty reason. -/
theorem applyPatches_strict_atomicity_witness :
    (applyPatches "a".toList
      "<replace><find>zz</find><with>b</with></replace>".toList true false).success = false ∧
    (applyPatches "a".toList
      "<replace><find>zz</find><with>b</with></replace>".toList true false).content =
        normalizeText "a".toList ∧
    (applyPatches "a".toList
      "<replace><find>zz</find><with>b</with></replace>".toList true false).reason ≠ [] := by
  have h := applyPatches_strict_atomicity "a".toList
    "<replace><find>zz</find><with>b</with></replace>".toList true
  have hs := h.2 (by decide) (by decide) (by decide)
  exact ⟨hs, (h.1 hs).1, (h.1 hs).2⟩

/-! ## Claim C4 — de-duplication of repeated operations -/

/-- Once an operation's key has been seen, every further repetition of
that operation is dropped by the de-duplication loop. -/
theorem dedupAux_replicate_skip :
    ∀ (n : Nat) (seen : List Str) (op : PatchOp),
      seen.any (fun k => k = opKey op) = true →
      dedupAux seen (List.replicate n op) = [] := by
  intro n
  induction n with
  | zero => intro seen op _; rfl
  | succ m ih =>
    intro seen op h
    rw [List.replicate_succ]
    rw [dedupAux]
    simp only [h, if_true]
    exact ih seen op h

/-- A batch of `n + 1` syntactically identical operations de-duplicates
to the single operation. -/
theorem dedupOps_replicate (n : Nat) (op : PatchOp) :
    dedupOps (List.replicate (n + 1) op) = [op] := by
  unfold dedupOps
  rw [List.replicate_succ, dedupAux]
  simp only [List.any_nil, Bool.false_eq_true, if_false]
  rw [dedupAux_replicate_skip n [opKey op] op (by simp)]

/-- The execution loop on a single operation applies at most once, and
applies exactly once iff it changed the content. -/
theorem execOps_single (be : Bool) (op : PatchOp) (orig : Str) :
    (execOps be [op] orig [] 0).applied ≤ 1 ∧
    ((execOps be [op] orig [] 0).content ≠ orig → (execOps be [op] orig [] 0).applied = 1) := by
  simp only [execOps]
  split
  · split <;> simp
  · split
    · split <;> simp
    · split <;> simp_all

/-- The post-parse engine on a single operation applies at most once, and
exactly once whenever the result differs from the original content. -/
theorem applyPatchesOps_single_applied (orig : Str) (op : PatchOp) (isFinal be : Bool) :
    (applyPatchesOps orig [op] isFinal be).appliedOps ≤ 1 ∧
    ((applyPatchesOps orig [op] isFinal be).content ≠ orig →
      (applyPatchesOps orig [op] isFinal be).appliedOps = 1) := by
  have hx := execOps_single be op orig
  simp only [applyPatchesOps]
  split
  · split
    · split <;> simp
    · simp
  · split
    · rename_i hemp
      simp at hemp
    · split
      · exact ⟨hx.1, fun h => absurd rfl h⟩
      · split
        · exact ⟨hx.1, fun h => absurd rfl h⟩
        · exact ⟨hx.1, hx.2⟩

/-- C4 (confirmed): a patch body parsing to `n + 1` syntactically
identical operations behaves exactly like the single de-duplicated
operation — the engine runs on `[op]`, applies at most one operation,
and reports `appliedOps = 1` exactly when the content changed. -/
theorem applyPatches_dedups_identical_ops (content patchBody : Str) (isFinal be : Bool)
    (n : Nat) (op : PatchOp) (hops : bodyOps patchBody = List.replicate (n + 1) op) :
    applyPatches content patchBody isFinal be =
      applyPatchesOps (normalizeText content) [op] isFinal be ∧
    (applyPatches content patchBody isFinal be).appliedOps ≤ 1 ∧
    ((applyPatches content patchBody isFinal be).content ≠ normalizeText content →
      (applyPatches content patchBody isFinal be).appliedOps = 1) := by
  have hd : dedupedOf patchBody = [op] := by
    unfold dedupedOf
    rw [hops]
    exact dedupOps_replicate n op
  have he : applyPatches content patchBody isFinal be =
      applyPatchesOps (normalizeText content) [op] isFinal be := by
    unfold applyPatches
    rw [hd]
  refine ⟨he, ?_, ?_⟩
  · rw [he]; exact (applyPatchesOps_single_applied _ op isFinal be).1
  · rw [he]; exact (applyPatchesOps_single_applied _ op isFinal be).2

set_option maxRecDepth 100000 in
/-- Witness for C4: three byte-identical `replace` operations in one body
are applied exactly once — `appliedOps = 1` and the content equals the
single application. -/
theorem applyPatches_dedups_identical_ops_witness :
    bodyOps
      "<replace><find>a</find><with>b</with></replace><replace><find>a</find><with>b</with></replace><replace><find>a</find><with>b</with></replace>".toList
      = List.replicate 3 ⟨OpType.replace, "a".toList, "b".toList⟩ ∧
    applyPatches "xa".toList
      "<replace><find>a</find><with>b</with></replace><replace><find>a</find><with>b</with></replace><replace><find>a</find><with>b</with></replace>".toList
      true false =
      applyPatchesOps (normalizeText "xa".toList)
        [⟨OpType.replace, "a".toList, "b".toList⟩] true false ∧
    (applyPatches "xa".toList
      "<replace><find>a</find><with>b</with></replace><replace><find>a</find><with>b</with></replace><replace><find>a</find><with>b</with></replace>".toList
      true false).appliedOps = 1 ∧
    (applyPatches "xa".toList
      "<replace><find>a</find><with>b</with></replace><replace><find>a</find><with>b</with></replace><replace><find>a</find><with>b</with></replace>".toList
      true false).content = "xb".toList := by
  refine ⟨by decide, ?_, by decide, by decide⟩
  exact (applyPatches_dedups_identical_ops "xa".toList _ true false 2
    ⟨OpType.replace, "a".toList, "b".toList⟩ (by decide)).1

/-! ## Claim C5 — no-op reporting on the final pass -/

/-- C5 counterexample: the claim states that an anchored batch whose
operations parse and locate but produce content identical to the
original (`with == find`) is reported with `success = false` by the
Patch Engine on the final pass.  In strict mode the engine instead
returns `success = true` with `appliedOps = 0`. -/
theorem applyPatches_noop_success_cex :
    applyPatches "a".toList "<replace><find>a</find><with>a</with></replace>".toList
      true false =
      { content := "a".toList, success := true, reason := [], opsCount := 1, appliedOps := 0 } := by
  decide

/-- C5 (amended): on the final pass the engine reports a no-diff `create`
batch as a failure (`success = false` with the no-diff reason), but an
anchored batch that executes successfully in strict mode while leaving
the content unchanged is returned with `success = true` and
`appliedOps = 0` — the no-op is surfaced by the parse layer, not by the
engine's success flag. -/
theorem applyPatches_noop_reporting (content patchBody : Str) :
    (∀ lc : PatchOp, (createsOf patchBody).getLast? = some lc →
      normalizeText content = lc.w →
      applyPatches content patchBody true false =
        { content := normalizeText content, success := false, reason := reasonCreateNoDiff,
          opsCount := 1, appliedOps := 0 }) ∧
    (createsOf patchBody = [] → dedupedOf patchBody ≠ [] →
      (execOps false (dedupedOf patchBody) (normalizeText content) [] 0).ok = true →
      (execOps false (dedupedOf patchBody) (normalizeText content) [] 0).content =
        normalizeText content →
      applyPatches content patchBody true false =
        { content := normalizeText content, success := true, reason := [],
          opsCount := (dedupedOf patchBody).length,
          appliedOps := (execOps false (dedupedOf patchBody)
            (normalizeText content) [] 0).applied }) := by
  constructor
  · intro lc hlc hw
    unfold createsOf at hlc
    unfold applyPatches
    simp only [applyPatchesOps, hlc, hw, if_true]
  · intro hc hne hok hceq
    have hlast : ((dedupedOf patchBody).filter fun o => o.type == OpType.create).getLast?
        = none := by
      unfold createsOf at hc
      rw [hc]
      rfl
    have hemp : (dedupedOf patchBody).isEmpty = false := by
      cases h' : dedupedOf patchBody with
      | nil => exact absurd h' hne
      | cons a l => rfl
    simp only [applyPatches, applyPatchesOps, hlast, hemp, Bool.false_eq_true, if_false, hok,
      Bool.true_eq_false, Bool.false_and, hceq]

/-- Witness for C5: a `create` whose payload equals the file is rejected
as a no-op on the final pass, while a `replace` with `with == find`
sails through with `success = true` and `appliedOps = 0`. -/
theorem applyPatches_noop_reporting_witness :
    applyPatches "A".toList "<create><with>A</with></create>".toList true false =
      { content := "A".toList, success := false, reason := reasonCreateNoDiff,
        opsCount := 1, appliedOps := 0 } ∧
    applyPatches "a".toList "<replace><find>a</find><with>a</with></replace>".toList
      true false =
      { content := "a".toList, success := true, reason := [], opsCount := 1,
        appliedOps := 0 } := by
  constructor
  · have h := (applyPatches_noop_reporting "A".toList
      "<create><with>A</with></create>".toList).1
      ⟨OpType.create, [], "A".toList⟩ (by decide) (by decide)
    rw [h]; decide
  · have h := (applyPatches_noop_reporting "a".toList
      "<replace><find>a</find><with>a</with></replace>".toList).2
      (by decide) (by decide) (by decide) (by decide)
    rw [h]; decide

/-! ## Claim C10 — create-operation precedence -/

/-- C10 counterexample: with the duplicated create sequence `A, B, A`
the last create operation in document order carries payload `A`, but the
engine de-duplicates first and writes the payload `B` of the last
*distinct* create. -/
theorem applyPatches_create_doc_order_cex :
    ((bodyOps "<create><with>A</with></create><create><with>B</with></create><create><with>A</with></create>".toList).filter
        fun o => o.type == OpType.create).getLast? =
      some ⟨OpType.create, [], "A".toList⟩ ∧
    (applyPatches "x".toList
      "<create><with>A</with></create><create><with>B</with></create><create><with>A</with></create>".toList
      true false).content = "B".toList ∧
    "B".toList ≠ "A".toList := by
  decide

/-- C10 (amended): whenever the de-duplicated batch contains a create
operation, the engine ignores every other operation — the result depends
only on the last create of the de-duplicated list (first-occurrence
order, which differs from plain document order when a duplicate of an
earlier create appears last): the whole content becomes that create's
payload, `opsCount` is reported as 1, and any body with the same last
de-duplicated create yields the identical result. -/
theorem applyPatches_create_precedence (content patchBody : Str) (isFinal be : Bool)
    (lc : PatchOp) (h : (createsOf patchBody).getLast? = some lc) :
    (applyPatches content patchBody isFinal be).content = lc.w ∧
    (applyPatches content patchBody isFinal be).opsCount = 1 ∧
    (normalizeText content ≠ lc.w →
      applyPatches content patchBody isFinal be =
        { content := lc.w, success := true, reason := [], opsCount := 1, appliedOps := 1 }) ∧
    (∀ patchBody2 : Str, (createsOf patchBody2).getLast? = some lc →
      applyPatches content patchBody2 isFinal be =
        applyPatches content patchBody isFinal be) := by
  have key : ∀ pb : Str, (createsOf pb).getLast? = some lc →
      applyPatches content pb isFinal be =
        (if normalizeText content = lc.w then
          (if isFinal then
            { content := normalizeText content, success := false, reason := reasonCreateNoDiff,
              opsCount := 1, appliedOps := 0 }
           else
            { content := normalizeText content, success := true, reason := [],
              opsCount := 1, appliedOps := 0 })
         else
          { content := lc.w, success := true, reason := [], opsCount := 1,
            appliedOps := 1 }) := by
    intro pb hpb
    unfold createsOf at hpb
    unfold applyPatches
    simp only [applyPatchesOps, hpb]
  refine ⟨?_, ?_, ?_, ?_⟩
  · rw [key patchBody h]
    split_ifs with h1 h2 <;> simp [h1]
  · rw [key patchBody h]
    split_ifs <;> rfl
  · intro hne
    rw [key patchBody h, if_neg hne]
  · intro pb2 h2
    rw [key patchBody h, key pb2 h2]

/-- Witness for C10: a single `create` replaces the whole file with its
payload, with `opsCount = 1` and `appliedOps = 1`. -/
theorem applyPatches_create_precedence_witness :
    (applyPatches "x".toList "<create><with>Y</with></create>".toList true false).content
      = "Y".toList ∧
    applyPatches "x".toList "<create><with>Y</with></create>".toList true false =
      { content := "Y".toList, success := true, reason := [], opsCount := 1,
        appliedOps := 1 } := by
  have h := applyPatches_create_precedence "x".toList
    "<create><with>Y</with></create>".toList true false
    ⟨OpType.create, [], "Y".toList⟩ (by decide)
  exact ⟨h.1, h.2.2.1 (by decide)⟩

/-! ## Claim C3 — inline cross-file rescue scoring and tie handling -/

/-- C3 (confirmed): (1) every rescue candidate was produced by a
successful best-effort run that applied at least one operation, and its
score is `appliedOps * 100 + (1 if all ops applied else 0)`; (2) every
project file is tried — any file whose best-effort run succeeds with an
applied operation and a content change contributes a candidate; (3) when
two or more files tie for the maximum score the rescue reports ambiguity
and mutates no file; (4) the patch is applied exactly when a unique file
attains the maximum score. -/
theorem inlineRescue_spec :
    (∀ (text : Str) (files : List (Str × Str)) (isFinal : Bool) (c : RescueCand),
      c ∈ rescueCandidates text files isFinal →
        c.score = c.result.appliedOps * 100 +
          (if c.result.opsCount = c.result.appliedOps then 1 else 0) ∧
        c.result.success = true ∧ 0 < c.result.appliedOps) ∧
    (∀ (text : Str) (files : List (Str × Str)) (isFinal : Bool) (f cont : Str),
      (f, cont) ∈ files →
      (applyPatches cont (rescueBody text) isFinal true).success = true →
      0 < (applyPatches cont (rescueBody text) isFinal true).appliedOps →
      (applyPatches cont (rescueBody text) isFinal true).content ≠ cont →
      (⟨f, applyPatches cont (rescueBody text) isFinal true,
        (applyPatches cont (rescueBody text) isFinal true).appliedOps * 100 +
          (if (applyPatches cont (rescueBody text) isFinal true).opsCount =
              (applyPatches cont (rescueBody text) isFinal true).appliedOps
           then 1 else 0)⟩ : RescueCand) ∈ rescueCandidates text files isFinal) ∧
    (∀ (text : Str) (files : List (Str × Str)) (isFinal : Bool),
      1 < (rescueTop (rescueCandidates text files isFinal)).length →
      inlineRescueStep text files isFinal = (files, true, false)) ∧
    (∀ (text : Str) (files : List (Str × Str)) (isFinal : Bool) (c : RescueCand),
      rescueTop (rescueCandidates text files isFinal) = [c] →
      inlineRescueStep text files isFinal =
        (setFile files c.file c.result.content, false, true)) := by
  refine ⟨?_, ?_, ?_, ?_⟩
  · intro text files isFinal c hmem
    unfold rescueCandidates at hmem
    obtain ⟨fc, _, heq⟩ := List.mem_filterMap.mp hmem
    by_cases hcond : ((applyPatches fc.2 (rescueBody text) isFinal true).success &&
        decide (0 < (applyPatches fc.2 (rescueBody text) isFinal true).appliedOps) &&
        decide ((applyPatches fc.2 (rescueBody text) isFinal true).content ≠ fc.2)) = true
    · rw [if_pos hcond] at heq
      cases heq
      simp only [Bool.and_eq_true, decide_eq_true_eq] at hcond
      exact ⟨rfl, hcond.1.1, hcond.1.2⟩
    · rw [if_neg hcond] at heq
      cases heq
  · intro text files isFinal f cont hmem hsuc hpos hne
    unfold rescueCandidates
    refine List.mem_filterMap.mpr ⟨(f, cont), hmem, ?_⟩
    have hcond : ((applyPatches cont (rescueBody text) isFinal true).success &&
        decide (0 < (applyPatches cont (rescueBody text) isFinal true).appliedOps) &&
        decide ((applyPatches cont (rescueBody text) isFinal true).content ≠ cont)) = true := by
      simp [hsuc, hpos, hne]
    rw [if_pos hcond]
  · intro text files isFinal htie
    have hlen : 1 < (rescueCandidates text files isFinal).length :=
      lt_of_lt_of_le htie (List.length_filter_le _ _)
    have hemp : (rescueCandidates text files isFinal).isEmpty = false := by
      cases h' : rescueCandidates text files isFinal with
      | nil => rw [h'] at hlen; simp at hlen
      | cons a l => rfl
    simp only [inlineRescueStep, hemp, Bool.false_eq_true, if_false]
    rcases hw : rescueTop (rescueCandidates text files isFinal) with _ | ⟨a, _ | ⟨b, t⟩⟩
    · rfl
    · rw [hw] at htie; simp at htie
    · rfl
  · intro text files isFinal c hc
    have hmem : c ∈ rescueCandidates text files isFinal := by
      have : c ∈ rescueTop (rescueCandidates text files isFinal) := by
        rw [hc]; exact List.mem_singleton_self c
      exact List.mem_of_mem_filter this
    have hemp : (rescueCandidates text files isFinal).isEmpty = false := by
      cases h' : rescueCandidates text files isFinal with
      | nil => rw [h'] at hmem; cases hmem
      | cons a l => rfl
    simp only [inlineRescueStep, hemp, Bool.false_eq_true, if_false, hc]

/-- Witness for C3: the same single-op inline patch matches the contents
of both `a` and `b` (equal scores 101) — ambiguity, nothing mutated; with
distinct contents only `a` matches — applied to `a` alone. -/
theorem inlineRescue_spec_witness :
    inlineRescueStep "<replace><find>x</find><with>y</with></replace>".toList
      [("a".toList, "x".toList), ("b".toList, "x".toList)] true =
      ([("a".toList, "x".toList), ("b".toList, "x".toList)], true, false) ∧
    inlineRescueStep "<replace><find>x</find><with>y</with></replace>".toList
      [("a".toList, "x".toList), ("b".toList, "z".toList)] true =
      ([("a".toList, "\ny\n".toList), ("b".toList, "z".toList)], false, true) := by
  constructor
  · exact (inlineRescue_spec).2.2.1 "<replace><find>x</find><with>y</with></replace>".toList
      [("a".toList, "x".toList), ("b".toList, "x".toList)] true (by decide)
  · have h := (inlineRescue_spec).2.2.2
      "<replace><find>x</find><with>y</with></replace>".toList
      [("a".toList, "x".toList), ("b".toList, "z".toList)] true
      ⟨"a".toList, ⟨"\ny\n".toList, true, [], 1, 1⟩, 101⟩ (by decide)
    rw [h]
    decide

/-! ## Claim C6 — retry decision -/

/-- C6 (confirmed): with `attemptIndex = 1` and `isRepairCall = false`,
single-pass mode never retries, always-best-of-2 always retries, and
adaptive mode retries exactly when a hard issue, runtime issue, missing
effective change or inline-anchor miss is present; repair calls and
attempt indices of 2 or more never retry, in any mode. -/
theorem shouldTriggerSecondAttempt_spec :
    (∀ h r n i : Bool,
      (shouldTriggerSecondAttempt ⟨.singlePass, false, 1, h, r, n, i⟩).shouldRetry = false ∧
      (shouldTriggerSecondAttempt ⟨.alwaysBestOf2, false, 1, h, r, n, i⟩).shouldRetry = true ∧
      (shouldTriggerSecondAttempt ⟨.adaptiveBestOf2, false, 1, h, r, n, i⟩).shouldRetry
        = (h || r || n || i)) ∧
    (∀ inp : RetryDecisionInput, inp.isRepairCall = true →
      (shouldTriggerSecondAttempt inp).shouldRetry = false) ∧
    (∀ inp : RetryDecisionInput, 2 ≤ inp.attemptIndex →
      (shouldTriggerSecondAttempt inp).shouldRetry = false) := by
  refine ⟨?_, ?_, ?_⟩
  · intro h r n i
    cases h <;> cases r <;> cases n <;> cases i <;> exact ⟨by decide, by decide, by decide⟩
  · intro inp hrep
    obtain ⟨qm, irc, ai, a, b, c, d⟩ := inp
    cases hrep
    simp [shouldTriggerSecondAttempt]
  · intro inp hat
    obtain ⟨qm, irc, ai, a, b, c, d⟩ := inp
    cases irc with
    | true => simp [shouldTriggerSecondAttempt]
    | false => simp only [shouldTriggerSecondAttempt, Bool.false_eq_true, if_false,
        if_pos hat]

/-- Witness for C6: concrete decisions — a hard-failing first attempt in
single-pass mode is not retried, a healthy first attempt in
always-best-of-2 mode is, a repair call never is, and a second attempt
never fires a third. -/
theorem shouldTriggerSecondAttempt_spec_witness :
    (shouldTriggerSecondAttempt ⟨.singlePass, false, 1, true, false, false, false⟩).shouldRetry
      = false ∧
    (shouldTriggerSecondAttempt
      ⟨.alwaysBestOf2, false, 1, false, false, false, false⟩).shouldRetry = true ∧
    (shouldTriggerSecondAttempt
      ⟨.adaptiveBestOf2, true, 1, true, true, true, true⟩).shouldRetry = false ∧
    (shouldTriggerSecondAttempt
      ⟨.adaptiveBestOf2, false, 2, true, true, true, true⟩).shouldRetry = false := by
  refine ⟨(shouldTriggerSecondAttempt_spec.1 true false false false).1,
    (shouldTriggerSecondAttempt_spec.1 false false false false).2.1,
    shouldTriggerSecondAttempt_spec.2.1 _ rfl,
    shouldTriggerSecondAttempt_spec.2.2 _ (by decide)⟩

/-! ## Claim C7 — candidate scoring -/

/-- C7 (confirmed): the candidate score is exactly
`(+240 if changedFiles > 0 else -120) + 16 * min(appliedOps, 6)
 - 140 * max(0, validationDelta) + (+60 if runtimeOk else -80)
 - 110 * hardFailures`, and two candidates identical except that one has
`changedFiles = 0` and the other `changedFiles > 0` differ strictly in
favour of the latter. -/
theorem scoreRunCandidate_spec :
    (∀ (vd : Int) (rok : Bool) (cf ao hf : Nat),
      (scoreRunCandidate vd rok cf ao hf).score =
        (if 0 < cf then (240 : Int) else -120) + 16 * ((min ao 6 : Nat) : Int)
          - 140 * max 0 vd + (if rok then (60 : Int) else -80) - 110 * (hf : Int)) ∧
    (∀ (vd : Int) (rok : Bool) (ao hf cf : Nat), 0 < cf →
      (scoreRunCandidate vd rok 0 ao hf).score < (scoreRunCandidate vd rok cf ao hf).score) := by
  constructor
  · intro vd rok cf ao hf
    simp only [scoreRunCandidate]
    ring
  · intro vd rok ao hf cf hcf
    simp only [scoreRunCandidate, if_pos hcf, if_neg (lt_irrefl 0)]
    linarith

/-- Witness for C7: at `validationDelta = 0`, `runtimeOk = true`,
`appliedOps = 0`, `hardFailures = 0`, one changed file scores 300
versus -60 for none, and the formula instance holds. -/
theorem scoreRunCandidate_spec_witness :
    (scoreRunCandidate 0 true 0 0 0).score < (scoreRunCandidate 0 true 1 0 0).score ∧
    (scoreRunCandidate 0 true 1 0 0).score =
      (if 0 < (1 : Nat) then (240 : Int) else -120) + 16 * ((min 0 6 : Nat) : Int)
        - 140 * max 0 (0 : Int) + (if true then (60 : Int) else -80) - 110 * ((0 : Nat) : Int) := by
  exact ⟨scoreRunCandidate_spec.2 0 true 0 0 1 (by decide),
    scoreRunCandidate_spec.1 0 true 1 0 0⟩

/-! ## Claim C8 — idempotence of normalization -/

/-- C8 counterexample: the Text Normalizer is not idempotent.  Stripping
the `</patch>` wrapper from `"<pa</patch>tch: f>"` exposes the literal
`"<patch: f>"`, which only a second run rewrites into the canonical
marker — so the second run performs a further rewrite. -/
theorem textNormalize_not_idempotent_cex :
    textNormalize "<pa</patch>tch: f>".toList = "<patch: f>".toList ∧
    textNormalize (textNormalize "<pa</patch>tch: f>".toList) =
      "<!-- patch: f -->".toList ∧
    textNormalize (textNormalize "<pa</patch>tch: f>".toList) ≠
      textNormalize "<pa</patch>tch: f>".toList := by
  decide

/-- No rewrite rule of the Text Normalizer matches anywhere in `s`
(stated over all suffixes of `s`, one conjunct per rule).  This predicate
characterizes the inputs on which the amended C8 idempotence statement
holds; it is a specification-side definition, not a source translation. -/
def normalizeTriggerFree (s : Str) : Prop :=
  (∀ t ∈ s.tails, stepFunctionWrapper "patch".toList t = none) ∧
  (∀ t ∈ s.tails, stepFunctionWrapper "filename".toList t = none) ∧
  (∀ t ∈ s.tails, stepMarkerWrapper "patch".toList t = none) ∧
  (∀ t ∈ s.tails, stepMarkerWrapper "filename".toList t = none) ∧
  (∀ t ∈ s.tails, stepToolWrapper t = none) ∧
  (∀ t ∈ s.tails, stepRemoveLit "</patch>".toList t = none) ∧
  (∀ t ∈ s.tails, stepRemoveLit "</function>".toList t = none) ∧
  (∀ t ∈ s.tails,
    ∀ tag ∈ ["replace", "insert_before", "insert_after", "delete", "create", "find", "with"],
      stepBrokenClosing tag.toList t = none) ∧
  (∀ t ∈ s.tails, (['<', '/'].isPrefixOf t && (t.drop 2).all isWsChar) = false)

instance (s : Str) : Decidable (normalizeTriggerFree s) := by
  unfold normalizeTriggerFree
  infer_instance

/-- A rewrite scan whose rule matches at no suffix is the identity. -/
theorem scanRw_id (step : Str → Option (Str × Str)) :
    ∀ (fuel : Nat) (s : Str), (∀ t : Str, t <:+ s → step t = none) →
      scanRw step fuel s = s := by
  intro fuel
  induction fuel with
  | zero => intro s _; rfl
  | succ n ih =>
    intro s h
    cases s with
    | nil => rfl
    | cons c rest =>
      rw [scanRw, h (c :: rest) (List.suffix_refl _),
        ih rest (fun t ht => h t (ht.trans (List.suffix_cons c rest)))]

/-- `runRw` variant of `scanRw_id`. -/
theorem runRw_id (step : Str → Option (Str × Str)) (s : Str)
    (h : ∀ t : Str, t <:+ s → step t = none) : runRw step s = s :=
  scanRw_id step s.length s h

/-- The dangling-`</` scan finds nothing when no suffix matches. -/
theorem danglingIdxAux_none :
    ∀ (fuel : Nat) (pos : Nat) (s : Str),
      (∀ t : Str, t <:+ s → (['<', '/'].isPrefixOf t && (t.drop 2).all isWsChar) = false) →
      danglingIdxAux fuel pos s = none := by
  intro fuel
  induction fuel with
  | zero => intro pos s _; rfl
  | succ n ih =>
    intro pos s h
    cases s with
    | nil => rfl
    | cons c rest =>
      rw [danglingIdxAux, h (c :: rest) (List.suffix_refl _)]
      simp only [Bool.false_eq_true, if_false]
      exact ih (pos + 1) rest (fun t ht => h t (ht.trans (List.suffix_cons c rest)))

/-- C8 (amended): the Text Normalizer is the identity on any text in
which none of its rewrite rules matches — on such texts a re-run is a
no-op.  It is not idempotent in general: a first run can expose a fresh
trigger (see the counterexample), which only a further run rewrites. -/
theorem textNormalize_id_on_trigger_free (s : Str) (h : normalizeTriggerFree s) :
    textNormalize s = s := by
  obtain ⟨h1, h2, h3, h4, h5, h6, h7, h8, h9⟩ := h
  have stt : ∀ t : Str, t <:+ s → t ∈ s.tails := fun t ht => (List.mem_tails t s).mpr ht
  have e1 := runRw_id (stepFunctionWrapper "patch".toList) s (fun t ht => h1 t (stt t ht))
  have e2 := runRw_id (stepFunctionWrapper "filename".toList) s (fun t ht => h2 t (stt t ht))
  have e3 := runRw_id (stepMarkerWrapper "patch".toList) s (fun t ht => h3 t (stt t ht))
  have e4 := runRw_id (stepMarkerWrapper "filename".toList) s (fun t ht => h4 t (stt t ht))
  have e5 := runRw_id stepToolWrapper s (fun t ht => h5 t (stt t ht))
  have e6 := runRw_id (stepRemoveLit "</patch>".toList) s (fun t ht => h6 t (stt t ht))
  have e7 := runRw_id (stepRemoveLit "</function>".toList) s (fun t ht => h7 t (stt t ht))
  have ntm : normalizeToolMarkers s = s := by
    simp only [normalizeToolMarkers]
    rw [e1, e2, e3, e4, e5, e6, e7]
  have ebr := runRw_id (stepBrokenClosing "replace".toList) s
    (fun t ht => h8 t (stt t ht) "replace" (by simp))
  have ebib := runRw_id (stepBrokenClosing "insert_before".toList) s
    (fun t ht => h8 t (stt t ht) "insert_before" (by simp))
  have ebia := runRw_id (stepBrokenClosing "insert_after".toList) s
    (fun t ht => h8 t (stt t ht) "insert_after" (by simp))
  have ebd := runRw_id (stepBrokenClosing "delete".toList) s
    (fun t ht => h8 t (stt t ht) "delete" (by simp))
  have ebc := runRw_id (stepBrokenClosing "create".toList) s
    (fun t ht => h8 t (stt t ht) "create" (by simp))
  have ebf := runRw_id (stepBrokenClosing "find".toList) s
    (fun t ht => h8 t (stt t ht) "find" (by simp))
  have ebw := runRw_id (stepBrokenClosing "with".toList) s
    (fun t ht => h8 t (stt t ht) "with" (by simp))
  have nbx : normalizeBrokenXmlClosings s = s := by
    simp only [normalizeBrokenXmlClosings, List.foldl_cons, List.foldl_nil]
    rw [ebr, ebib, ebia, ebd, ebc, ebf, ebw]
    rw [danglingIdxAux_none s.length 0 s (fun t ht => h9 t (stt t ht))]
  unfold textNormalize
  rw [ntm, nbx]

/-- Witness for C8: a canonical marker followed by plain code contains no
rewrite trigger, so normalization leaves it untouched. -/
theorem textNormalize_id_on_trigger_free_witness :
    normalizeTriggerFree "<!-- patch: App.tsx -->\nconst x = 1;".toList ∧
    textNormalize "<!-- patch: App.tsx -->\nconst x = 1;".toList =
      "<!-- patch: App.tsx -->\nconst x = 1;".toList := by
  have h : normalizeTriggerFree "<!-- patch: App.tsx -->\nconst x = 1;".toList := by decide
  exact ⟨h, textNormalize_id_on_trigger_free _ h⟩

/-! ## Claim C9 — core-scaffold invariant -/

/-- Updating a key makes it present with the new value. -/
theorem lookupF_setFile_self :
    ∀ (fs : List (Str × Str)) (k v : Str), lookupF (setFile fs k v) k = some v := by
  intro fs
  induction fs with
  | nil => intro k v; simp [setFile, lookupF]
  | cons p t ih =>
    intro k v
    rw [setFile]
    by_cases hk : p.1 = k
    · simp only [hk, if_true, lookupF, if_pos rfl]
    · simp only [hk, if_false, lookupF]
      exact ih k v

/-- Updating one key does not disturb the lookup of another. -/
theorem lookupF_setFile_ne :
    ∀ (fs : List (Str × Str)) (kset k v : Str), kset ≠ k →
      lookupF (setFile fs kset v) k = lookupF fs k := by
  intro fs
  induction fs with
  | nil =>
    intro kset k v hne
    simp only [setFile, lookupF]
    rw [if_neg hne]
  | cons p t ih =>
    intro kset k v hne
    rw [setFile]
    by_cases hk : p.1 = kset
    · rw [if_pos hk]
      simp only [lookupF]
      rw [if_neg hne, if_neg (fun hh => hne (hk.symm.trans hh))]
    · rw [if_neg hk]
      simp only [lookupF]
      by_cases hpk : p.1 = k
      · rw [if_pos hpk, if_pos hpk]
      · rw [if_neg hpk, if_neg hpk]
        exact ih kset k v hne

/-- A file already present survives the whole restore loop with its
value unchanged at lookup. -/
theorem scaffoldRestore_preserve :
    ∀ (ks : List Str) (base newf : List (Str × Str)) (k w : Str),
      lookupF newf k = some w → lookupF (scaffoldRestore ks base newf).1 k = some w := by
  intro ks
  induction ks with
  | nil => intro base newf k w hw; exact hw
  | cons k0 ks ih =>
    intro base newf k w hw
    rw [scaffoldRestore]
    cases hb : lookupF base k0 with
    | none => simp only [hb]; exact ih base newf k w hw
    | some v =>
      cases hn : lookupF newf k0 with
      | some u => simp only [hb, hn]; exact ih base newf k w hw
      | none =>
        simp only [hb, hn]
        have hne : k0 ≠ k := by
          intro he
          rw [he] at hn
          rw [hn] at hw
          cases hw
        exact ih base (setFile newf k0 v) k w
          (by rw [lookupF_setFile_ne newf k0 k v hne]; exact hw)

/-- Core of C9: a path listed in `ks` and present in the baseline is
present after the restore loop; if it was missing from the produced set
it is restored with the baseline value and recorded. -/
theorem scaffoldRestore_mem :
    ∀ (ks : List Str) (base newf : List (Str × Str)) (k v : Str),
      k ∈ ks → lookupF base k = some v →
      (∃ w, lookupF (scaffoldRestore ks base newf).1 k = some w) ∧
      (lookupF newf k = none →
        lookupF (scaffoldRestore ks base newf).1 k = some v ∧
        k ∈ (scaffoldRestore ks base newf).2) := by
  intro ks
  induction ks with
  | nil => intro base newf k v hmem; cases hmem
  | cons k0 ks ih =>
    intro base newf k v hmem hbase
    rw [scaffoldRestore]
    by_cases hk : k0 = k
    · subst hk
      cases hn : lookupF newf k0 with
      | none =>
        simp only [hbase, hn]
        have hpres := scaffoldRestore_preserve ks base (setFile newf k0 v) k0 v
          (lookupF_setFile_self newf k0 v)
        exact ⟨⟨v, hpres⟩, fun _ => ⟨hpres, List.mem_cons_self _ _⟩⟩
      | some w =>
        simp only [hbase, hn]
        have hpres := scaffoldRestore_preserve ks base newf k0 w hn
        exact ⟨⟨w, hpres⟩, fun hnone => Option.noConfusion hnone⟩
    · have hks : k ∈ ks := by
        rcases List.mem_cons.mp hmem with h | h
        · exact absurd h.symm hk
        · exact h
      cases hb0 : lookupF base k0 with
      | none => simp only [hb0]; exact ih base newf k v hks hbase
      | some v0 =>
        cases hn0 : lookupF newf k0 with
        | some u0 => simp only [hb0, hn0]; exact ih base newf k v hks hbase
        | none =>
          simp only [hb0, hn0]
          have htrans : lookupF (setFile newf k0 v0) k = lookupF newf k :=
            lookupF_setFile_ne newf k0 k v0 hk
          have hih := ih base (setFile newf k0 v0) k v hks hbase
          refine ⟨hih.1, fun hnone => ?_⟩
          have h2 := hih.2 (by rw [htrans]; exact hnone)
          exact ⟨h2.1, List.mem_cons_of_mem k0 h2.2⟩

/-- C9 (confirmed): on the final applying pass, every core scaffold path
present in the baseline is present in the guard's output; if the
produced file set omitted it, the baseline value is restored, the path
is recorded, and the `AUTO_GUARD` warning is emitted. -/
theorem scaffoldGuard_core_invariant (base newf : List (Str × Str)) (k v : Str)
    (hkc : k ∈ coreScaffold) (hb : lookupF base k = some v) :
    (∃ w, lookupF (scaffoldGuard base newf).1 k = some w) ∧
    (lookupF newf k = none →
      lookupF (scaffoldGuard base newf).1 k = some v ∧
      k ∈ (scaffoldGuard base newf).2 ∧
      scaffoldWarnings (scaffoldGuard base newf).2 ≠ []) := by
  have h := scaffoldRestore_mem coreScaffold base newf k v hkc hb
  refine ⟨h.1, fun hn => ⟨(h.2 hn).1, (h.2 hn).2, ?_⟩⟩
  have hmem := (h.2 hn).2
  rcases hr : (scaffoldGuard base newf).2 with _ | ⟨a, t⟩
  · unfold scaffoldGuard at hr
    rw [hr] at hmem
    cases hmem
  · simp [scaffoldWarnings, hr]

/-- Witness for C9: `App.tsx` is present in the baseline, dropped from
the produced set, and restored by the guard with a warning. -/
theorem scaffoldGuard_core_invariant_witness :
    lookupF (scaffoldGuard
      [("index.html".toList, "h".toList), ("App.tsx".toList, "a".toList)]
      [("other".toList, "o".toList)]).1 "App.tsx".toList = some "a".toList ∧
    "App.tsx".toList ∈ (scaffoldGuard
      [("index.html".toList, "h".toList), ("App.tsx".toList, "a".toList)]
      [("other".toList, "o".toList)]).2 ∧
    scaffoldWarnings (scaffoldGuard
      [("index.html".toList, "h".toList), ("App.tsx".toList, "a".toList)]
      [("other".toList, "o".toList)]).2 ≠ [] := by
  have h := (scaffoldGuard_core_invariant
    [("index.html".toList, "h".toList), ("App.tsx".toList, "a".toList)]
    [("other".toList, "o".toList)] "App.tsx".toList "a".toList
    (by decide) (by decide)).2 (by decide)
  exact ⟨h.1, h.2.1, h.2.2⟩

end Localship
